import Mathlib

/-!
Shallow embedding of the OS memory-management simulator
(`simulator.py` / the identical `MemorySimulator` class in `gui_viewer.py`):
virtual-address translation through a TLB, a page table with on-demand page
faults, and a direct-mapped cache backed by a byte array of physical memory.

Python dictionaries (insertion-ordered, unique keys) are embedded as
association lists; the `deque` FIFO queue as a list (front = head); the
`bytearray` of physical memory as a function `Nat → Nat` (its random initial
content becomes a parameter of the reset state).
-/

namespace MemSim

-- Configuration (simulator.py, lines 4-10)
def MEMORY_SIZE : Nat := 65536
def PAGE_SIZE : Nat := 256
def TLB_SIZE : Nat := 16
def CACHE_SIZE : Nat := 64
def CACHE_LINE_SIZE : Nat := 8
def NUM_PAGES : Nat := MEMORY_SIZE / PAGE_SIZE

-- Cache calculations (simulator.py, lines 32-35):
-- CACHE_OFFSET_BITS = (CACHE_LINE_SIZE - 1).bit_length() = 3,
-- CACHE_INDEX_BITS = (CACHE_SIZE - 1).bit_length() = 6.
def CACHE_OFFSET_BITS : Nat := 3
def CACHE_INDEX_BITS : Nat := 6

/-- A cache line `{tag, data, valid, dirty}` (simulator.py, line 19).
The tag is a Python int (`-1` sentinel when never filled), hence `Int`. -/
structure CacheLine where
  tag : Int
  data : List Nat
  valid : Bool
  dirty : Bool
deriving DecidableEq, Inhabited

/-- The six statistics counters (simulator.py, lines 23-30). -/
structure Stats where
  tlb_hits : Nat
  tlb_misses : Nat
  cache_hits : Nat
  cache_misses : Nat
  page_faults : Nat
  total_accesses : Nat
deriving DecidableEq

/-- The whole mutable module state of simulator.py (lines 12-30). -/
structure SimState where
  main_memory : Nat → Nat
  page_table : List (Nat × Nat)
  tlb : List (Nat × Nat)
  tlb_queue : List Nat
  cache : List CacheLine
  stats : Stats

-- Python-dict primitives on association lists.

/-- `k in d` for a Python dict. -/
def dictContains : List (Nat × Nat) → Nat → Bool
  | [], _ => false
  | e :: rest, k => e.1 == k || dictContains rest k

/-- `d[k]` for a Python dict; the `0` default is unreachable because the
simulator only reads keys it has checked with `in`. -/
def dictGet : List (Nat × Nat) → Nat → Nat
  | [], _ => 0
  | e :: rest, k => if e.1 == k then e.2 else dictGet rest k

/-- `d[k] = v` for a Python dict: updates in place if the key exists,
otherwise appends (insertion order). -/
def dictSet (d : List (Nat × Nat)) (k v : Nat) : List (Nat × Nat) :=
  if dictContains d k then d.map (fun e => if e.1 == k then (k, v) else e)
  else d ++ [(k, v)]

/-- `del d[k]` for a Python dict. -/
def dictDel : List (Nat × Nat) → Nat → List (Nat × Nat)
  | [], _ => []
  | e :: rest, k => if e.1 == k then dictDel rest k else e :: dictDel rest k

/-- The write loop `for i in range(n): mem[start + i] = f i`. -/
def writeLoop (m : Nat → Nat) (start : Nat) (f : Nat → Nat) : Nat → (Nat → Nat)
  | 0 => m
  | n + 1 => fun a => if a = start + n then f n else writeLoop m start f n a

/-- `get_cache_components` (simulator.py, lines 37-42): `(tag, index, offset)`
from a physical address. -/
def get_cache_components (physical_addr : Nat) : Nat × Nat × Nat :=
  let index := (physical_addr >>> CACHE_OFFSET_BITS) &&& (CACHE_SIZE - 1)
  let tag := physical_addr >>> (CACHE_OFFSET_BITS + CACHE_INDEX_BITS)
  let offset := physical_addr &&& (CACHE_LINE_SIZE - 1)
  (tag, index, offset)

/-- `handle_page_fault` (simulator.py, lines 45-59): bump `page_faults`,
assign `frame_num = len(page_table) % NUM_PAGES`, synthesize the page's bytes
into main memory, record `page_num -> frame_num`, return the frame. -/
def handle_page_fault (s : SimState) (page_num : Nat) : Nat × SimState :=
  let frame_num := s.page_table.length % NUM_PAGES
  let start_addr := frame_num * PAGE_SIZE
  (frame_num,
    { s with
      stats := { s.stats with page_faults := s.stats.page_faults + 1 }
      main_memory :=
        writeLoop s.main_memory start_addr (fun i => (page_num + i) % 256) PAGE_SIZE
      page_table := dictSet s.page_table page_num frame_num })

/-- `update_tlb` (simulator.py, lines 61-71): FIFO replacement.  `popleft` on
the (always nonempty in reachable states) queue is `headD 0` / `tail`. -/
def update_tlb (s : SimState) (page_num frame_num : Nat) : SimState :=
  if dictContains s.tlb page_num then s
  else if TLB_SIZE ≤ s.tlb.length then
    let oldest_page := s.tlb_queue.headD 0
    { s with
      tlb := dictSet (dictDel s.tlb oldest_page) page_num frame_num
      tlb_queue := s.tlb_queue.tail ++ [page_num] }
  else
    { s with
      tlb := dictSet s.tlb page_num frame_num
      tlb_queue := s.tlb_queue ++ [page_num] }

/-- `access_cache` (simulator.py, lines 73-95): returns
`(value, was_hit, new state)`.  On a miss the block start
`physical_addr & ~(CACHE_LINE_SIZE - 1)` (clear the low offset bits) is
`physical_addr - physical_addr % CACHE_LINE_SIZE`. -/
def access_cache (s : SimState) (physical_addr : Nat) : Nat × Bool × SimState :=
  let tag := (get_cache_components physical_addr).1
  let index := (get_cache_components physical_addr).2.1
  let offset := (get_cache_components physical_addr).2.2
  let cache_line := s.cache.getD index default
  if cache_line.valid && cache_line.tag == (tag : Int) then
    (cache_line.data.getD offset 0, true,
      { s with stats := { s.stats with cache_hits := s.stats.cache_hits + 1 } })
  else
    let block_start := physical_addr - physical_addr % CACHE_LINE_SIZE
    let data := (List.range CACHE_LINE_SIZE).map (fun i => s.main_memory (block_start + i))
    let new_line : CacheLine := { tag := (tag : Int), data := data, valid := true, dirty := false }
    (data.getD offset 0, false,
      { s with
        cache := s.cache.set index new_line
        stats := { s.stats with cache_misses := s.stats.cache_misses + 1 } })

/-- The result record of `translate_address` (simulator.py, lines 141-150),
without the human-readable log strings. -/
structure TranslationResult where
  virtual_addr : Nat
  physical_addr : Nat
  value : Nat
  page_num : Nat
  frame_num : Nat
  tlb_hit : Bool
  cache_hit : Bool
deriving DecidableEq

/-- `translate_address` (simulator.py, lines 97-150). -/
def translate_address (s0 : SimState) (virtual_addr : Nat) : TranslationResult × SimState :=
  let s1 : SimState :=
    { s0 with stats := { s0.stats with total_accesses := s0.stats.total_accesses + 1 } }
  let page_num := (virtual_addr >>> 8) &&& 0xFF
  let offset := virtual_addr &&& 0xFF
  if dictContains s1.tlb page_num then
    let frame_num := dictGet s1.tlb page_num
    let s2 : SimState := { s1 with stats := { s1.stats with tlb_hits := s1.stats.tlb_hits + 1 } }
    let physical_addr := frame_num * PAGE_SIZE + offset
    let c := access_cache s2 physical_addr
    ({ virtual_addr := virtual_addr, physical_addr := physical_addr, value := c.1,
       page_num := page_num, frame_num := frame_num, tlb_hit := true, cache_hit := c.2.1 },
     c.2.2)
  else
    let s2 : SimState :=
      { s1 with stats := { s1.stats with tlb_misses := s1.stats.tlb_misses + 1 } }
    let fr : Nat × SimState :=
      if dictContains s2.page_table page_num then (dictGet s2.page_table page_num, s2)
      else handle_page_fault s2 page_num
    let s3 := update_tlb fr.2 page_num fr.1
    let physical_addr := fr.1 * PAGE_SIZE + offset
    let c := access_cache s3 physical_addr
    ({ virtual_addr := virtual_addr, physical_addr := physical_addr, value := c.1,
       page_num := page_num, frame_num := fr.1, tlb_hit := false, cache_hit := c.2.1 },
     c.2.2)

/-- The initial cache: CACHE_SIZE lines `{'tag': -1, 'data': bytearray(8),
'valid': False, 'dirty': False}` (simulator.py, lines 19-20). -/
def initCache : List CacheLine :=
  List.replicate CACHE_SIZE
    { tag := -1, data := List.replicate CACHE_LINE_SIZE 0, valid := false, dirty := false }

/-- `reset_simulator` (simulator.py, lines 169-182).  The fresh random
content of `main_memory` is abstracted as the parameter `m0`. -/
def reset_simulator (m0 : Nat → Nat) : SimState :=
  { main_memory := m0
    page_table := []
    tlb := []
    tlb_queue := []
    cache := initCache
    stats := { tlb_hits := 0, tlb_misses := 0, cache_hits := 0, cache_misses := 0,
               page_faults := 0, total_accesses := 0 } }

/-- A list of translate calls executed in order. -/
def runTranslations (s : SimState) (vas : List Nat) : SimState :=
  vas.foldl (fun s va => (translate_address s va).2) s

/-- The states reachable by any sequence of `translate_address` and
`reset_simulator` calls (reset may draw any random memory content). -/
inductive Reachable : SimState → Prop
  | reset (m0 : Nat → Nat) : Reachable (reset_simulator m0)
  | translate (s : SimState) (va : Nat) : Reachable s → Reachable (translate_address s va).2

/-- All-zero initial memory content, used for concrete executions. -/
def zeroMem : Nat → Nat := fun _ => 0

-- ### Helper lemmas: dict, write loop, list access ###


lemma dictContains_iff (d : List (Nat × Nat)) (k : Nat) :
    dictContains d k = true ↔ k ∈ d.map Prod.fst := by
  induction d with
  | nil => simp [dictContains]
  | cons e rest ih =>
    rw [dictContains, Bool.or_eq_true, beq_iff_eq, ih, List.map_cons, List.mem_cons]
    exact or_congr ⟨fun h => h.symm, fun h => h.symm⟩ Iff.rfl

lemma dictContains_eq_false_iff (d : List (Nat × Nat)) (k : Nat) :
    dictContains d k = false ↔ k ∉ d.map Prod.fst := by
  rw [Bool.eq_false_iff, Ne, dictContains_iff]

lemma dictGet_mem {d : List (Nat × Nat)} {k : Nat} (h : dictContains d k = true) :
    (k, dictGet d k) ∈ d := by
  induction d with
  | nil => simp [dictContains] at h
  | cons e rest ih =>
    by_cases he : e.1 = k
    · obtain ⟨k1, v⟩ := e
      simp only at he
      subst he
      simp [dictGet]
    · have h' : dictContains rest k = true := by
        rw [dictContains, Bool.or_eq_true, beq_iff_eq] at h
        tauto
      simp only [dictGet, beq_iff_eq, if_neg he]
      exact List.mem_cons_of_mem _ (ih h')

lemma dictContains_of_mem {d : List (Nat × Nat)} {p f : Nat} (h : (p, f) ∈ d) :
    dictContains d p = true := by
  rw [dictContains_iff]
  exact List.mem_map_of_mem Prod.fst h

lemma dictSet_of_not_contains {d : List (Nat × Nat)} {k : Nat} (v : Nat)
    (h : dictContains d k = false) : dictSet d k v = d ++ [(k, v)] := by
  simp [dictSet, h]

lemma dictDel_of_not_contains {d : List (Nat × Nat)} {k : Nat}
    (h : dictContains d k = false) : dictDel d k = d := by
  induction d with
  | nil => rfl
  | cons e rest ih =>
    rw [dictContains, Bool.or_eq_false_iff] at h
    have hne : e.1 ≠ k := by simpa using h.1
    rw [dictDel, if_neg (by simpa using hne), ih h.2]

lemma dictContains_dictDel_false {d : List (Nat × Nat)} {k k' : Nat}
    (h : dictContains d k = false) : dictContains (dictDel d k') k = false := by
  induction d with
  | nil => rfl
  | cons e rest ih =>
    rw [dictContains, Bool.or_eq_false_iff] at h
    rw [dictDel]
    split
    · exact ih h.2
    · simp [dictContains, ih h.2, h.1]

lemma dictDel_cons_head {e0 : Nat × Nat} {d' : List (Nat × Nat)}
    (h : dictContains d' e0.1 = false) : dictDel (e0 :: d') e0.1 = d' := by
  rw [dictDel, if_pos (by simp), dictDel_of_not_contains h]

lemma writeLoop_eval_lt (m : Nat → Nat) (start : Nat) (f : Nat → Nat) :
    ∀ n a, a < n → writeLoop m start f n (start + a) = f a := by
  intro n
  induction n with
  | zero => intro a ha; exact absurd ha (Nat.not_lt_zero a)
  | succ n ih =>
    intro a ha
    simp only [writeLoop]
    by_cases h : a = n
    · subst h; rw [if_pos rfl]
    · rw [if_neg (by omega), ih a (by omega)]

lemma writeLoop_eval_out (m : Nat → Nat) (start : Nat) (f : Nat → Nat) :
    ∀ n a, a < start ∨ start + n ≤ a → writeLoop m start f n a = m a := by
  intro n
  induction n with
  | zero => intro a _; rfl
  | succ n ih =>
    intro a ha
    simp only [writeLoop]
    rw [if_neg (by omega), ih a (by omega)]

lemma getD_set_self {α : Type} [Inhabited α] (l : List α) (i : Nat) (a : α)
    (h : i < l.length) : (l.set i a).getD i default = a := by
  simp [List.getD_eq_getElem?_getD, List.getElem?_set_self', List.getElem?_eq_getElem h]

lemma getD_set_other {α : Type} [Inhabited α] (l : List α) (i j : Nat) (a : α)
    (h : j ≠ i) : (l.set i a).getD j default = l.getD j default := by
  simp [List.getD_eq_getElem?_getD, List.getElem?_set_ne (Ne.symm h)]

lemma getD_map_range {f : Nat → Nat} {n k : Nat} (h : k < n) :
    ((List.range n).map f).getD k 0 = f k := by
  simp [List.getD_eq_getElem?_getD, List.getElem?_range h]


-- ### Arithmetic facts about the address decompositions ###

lemma land_255 (x : Nat) : x &&& 255 = x % 256 := by
  simpa using Nat.and_pow_two_sub_one_eq_mod x 8

lemma land_63 (x : Nat) : x &&& 63 = x % 64 := by
  simpa using Nat.and_pow_two_sub_one_eq_mod x 6

lemma land_7 (x : Nat) : x &&& 7 = x % 8 := by
  simpa using Nat.and_pow_two_sub_one_eq_mod x 3

lemma page_num_lt (va : Nat) : (va >>> 8) &&& 0xFF < 256 := by
  rw [land_255]; omega

lemma offset_le (va : Nat) : va &&& 0xFF ≤ 255 := by
  rw [land_255]; omega

lemma gcc_tag (pa : Nat) : (get_cache_components pa).1 = pa >>> 9 := rfl

lemma gcc_index (pa : Nat) : (get_cache_components pa).2.1 = (pa >>> 3) &&& 63 := rfl

lemma gcc_offset (pa : Nat) : (get_cache_components pa).2.2 = pa &&& 7 := rfl

lemma index_lt (pa : Nat) : (pa >>> 3) &&& 63 < 64 := by
  rw [land_63]; omega

/-- The tag/index fields of a physical address locate exactly its 8-byte
aligned block: `tag * 512 + index * 8` is the block start. -/
lemma block_decomp (pa : Nat) :
    (pa >>> 9) * 512 + ((pa >>> 3) &&& 63) * 8 = pa - pa % 8 := by
  have h1 : pa >>> 9 = pa / 512 := by simpa using Nat.shiftRight_eq_div_pow pa 9
  have h2 : pa >>> 3 = pa / 8 := by simpa using Nat.shiftRight_eq_div_pow pa 3
  have h3 : (pa / 8) &&& 63 = (pa / 8) % 64 := by
    simpa using Nat.and_pow_two_sub_one_eq_mod (pa / 8) 6
  rw [h1, h2, h3]
  omega

/-- The aligned block of a physical address inside an allocated frame stays
below the end of the allocated frames. -/
lemma block_bound {f off len : Nat} (hf : f < len) (hoff : off ≤ 255) :
    (f * 256 + off) - (f * 256 + off) % 8 + 8 ≤ len * 256 := by omega

-- ### Field characterizations of the operations ###

lemma handle_page_fault_fst (s : SimState) (p : Nat) :
    (handle_page_fault s p).1 = s.page_table.length % NUM_PAGES := rfl

lemma handle_page_fault_page_table (s : SimState) (p : Nat) :
    (handle_page_fault s p).2.page_table =
      dictSet s.page_table p (s.page_table.length % NUM_PAGES) := rfl

lemma handle_page_fault_main_memory (s : SimState) (p : Nat) :
    (handle_page_fault s p).2.main_memory =
      writeLoop s.main_memory ((s.page_table.length % NUM_PAGES) * PAGE_SIZE)
        (fun i => (p + i) % 256) PAGE_SIZE := rfl

lemma handle_page_fault_tlb (s : SimState) (p : Nat) :
    (handle_page_fault s p).2.tlb = s.tlb := rfl

lemma handle_page_fault_tlb_queue (s : SimState) (p : Nat) :
    (handle_page_fault s p).2.tlb_queue = s.tlb_queue := rfl

lemma handle_page_fault_cache (s : SimState) (p : Nat) :
    (handle_page_fault s p).2.cache = s.cache := rfl

lemma handle_page_fault_stats (s : SimState) (p : Nat) :
    (handle_page_fault s p).2.stats =
      { s.stats with page_faults := s.stats.page_faults + 1 } := rfl

lemma update_tlb_fields (s : SimState) (p f : Nat) :
    (update_tlb s p f).main_memory = s.main_memory ∧
    (update_tlb s p f).page_table = s.page_table ∧
    (update_tlb s p f).cache = s.cache ∧
    (update_tlb s p f).stats = s.stats := by
  simp only [update_tlb]
  split_ifs <;> exact ⟨rfl, rfl, rfl, rfl⟩

lemma access_cache_fields (s : SimState) (pa : Nat) :
    (access_cache s pa).2.2.main_memory = s.main_memory ∧
    (access_cache s pa).2.2.page_table = s.page_table ∧
    (access_cache s pa).2.2.tlb = s.tlb ∧
    (access_cache s pa).2.2.tlb_queue = s.tlb_queue := by
  simp only [access_cache]
  split <;> exact ⟨rfl, rfl, rfl, rfl⟩

lemma access_cache_stats (s : SimState) (pa : Nat) :
    ∃ hb mb : Nat, hb + mb = 1 ∧
      (access_cache s pa).2.2.stats =
        { s.stats with cache_hits := s.stats.cache_hits + hb,
                       cache_misses := s.stats.cache_misses + mb } := by
  simp only [access_cache]
  split
  · exact ⟨1, 0, rfl, rfl⟩
  · exact ⟨0, 1, rfl, rfl⟩


-- ### Invariants of the reachable states ###

/-- Shape of the page table in every reachable state: the `i`-th inserted
page got frame `i`, pages are distinct, and each page number is 8-bit. -/
def PTInv (pt : List (Nat × Nat)) : Prop :=
  (∀ i, (h : i < pt.length) → (pt.get ⟨i, h⟩).2 = i) ∧
  (pt.map Prod.fst).Nodup ∧
  (∀ e ∈ pt, e.1 < 256)

/-- Shape of the TLB: its key list is exactly the FIFO queue (oldest first),
keys are distinct, it is capacity-bounded, and it mirrors the page table. -/
def TLBInv (s : SimState) : Prop :=
  s.tlb.map Prod.fst = s.tlb_queue ∧
  s.tlb_queue.Nodup ∧
  s.tlb.length ≤ TLB_SIZE ∧
  (∀ e ∈ s.tlb, e ∈ s.page_table)

/-- Shape of the cache: 64 lines, and every valid line is a byte-for-byte
copy of the aligned main-memory block named by its tag and index, a block
lying entirely inside the already-allocated frames. -/
def CacheInv (s : SimState) : Prop :=
  s.cache.length = 64 ∧
  ∀ i, i < 64 → ((s.cache.getD i default).valid = true →
    ∃ t : Nat, (s.cache.getD i default).tag = (t : Int) ∧
      t * 512 + i * 8 + 8 ≤ s.page_table.length * 256 ∧
      (s.cache.getD i default).data =
        (List.range 8).map (fun j => s.main_memory (t * 512 + i * 8 + j)))

/-- The conjunction of all structural invariants. -/
def Inv (s : SimState) : Prop := PTInv s.page_table ∧ TLBInv s ∧ CacheInv s

lemma PTInv_length_le {pt : List (Nat × Nat)} (h : PTInv pt) : pt.length ≤ 256 := by
  obtain ⟨-, hnodup, hlt⟩ := h
  have hsub : (pt.map Prod.fst).toFinset ⊆ Finset.range 256 := by
    intro x hx
    rw [List.mem_toFinset, List.mem_map] at hx
    obtain ⟨e, he, rfl⟩ := hx
    exact Finset.mem_range.mpr (hlt e he)
  have hcard := Finset.card_le_card hsub
  rwa [List.toFinset_card_of_nodup hnodup, Finset.card_range, List.length_map] at hcard

lemma PTInv_mem_frame_lt {pt : List (Nat × Nat)} (h : PTInv pt) {p f : Nat}
    (hm : (p, f) ∈ pt) : f < pt.length := by
  obtain ⟨hget, -, -⟩ := h
  obtain ⟨i, hi⟩ := List.mem_iff_get.mp hm
  have := hget i.1 i.2
  rw [Fin.eta, hi] at this
  simpa [← this] using i.2

/-- Frames determine entries: two page-table entries with the same frame are
the same entry. -/
lemma PTInv_frame_inj {pt : List (Nat × Nat)} (h : PTInv pt) {e1 e2 : Nat × Nat}
    (h1 : e1 ∈ pt) (h2 : e2 ∈ pt) (hf : e1.2 = e2.2) : e1 = e2 := by
  obtain ⟨hget, -, -⟩ := h
  obtain ⟨i, hi⟩ := List.mem_iff_get.mp h1
  obtain ⟨j, hj⟩ := List.mem_iff_get.mp h2
  have hvi := hget i.1 i.2
  have hvj := hget j.1 j.2
  rw [Fin.eta, hi] at hvi
  rw [Fin.eta, hj] at hvj
  have : i = j := Fin.ext (by rw [← hvi, ← hvj, hf])
  rw [← hi, ← hj, this]


-- ### Preservation of the invariants by each operation ###

lemma TLBInv_congr {s s' : SimState} (ht : s'.tlb = s.tlb)
    (hq : s'.tlb_queue = s.tlb_queue) (hp : s'.page_table = s.page_table)
    (h : TLBInv s) : TLBInv s' := by
  rw [TLBInv, ht, hq, hp]; exact h

lemma CacheInv_congr {s s' : SimState} (hm : s'.main_memory = s.main_memory)
    (hp : s'.page_table = s.page_table) (hc : s'.cache = s.cache)
    (h : CacheInv s) : CacheInv s' := by
  rw [CacheInv, hm, hp, hc]; exact h

lemma update_tlb_TLBInv {s : SimState} (h : TLBInv s) {p f : Nat}
    (hp : (p, f) ∈ s.page_table) : TLBInv (update_tlb s p f) := by
  obtain ⟨hkeys, hnodup, hlen, hsub⟩ := h
  by_cases hc : dictContains s.tlb p = true
  · rw [update_tlb, if_pos hc]
    exact ⟨hkeys, hnodup, hlen, hsub⟩
  · replace hc : dictContains s.tlb p = false := by
      cases hcc : dictContains s.tlb p
      · rfl
      · exact absurd hcc hc
    have hnotin : p ∉ s.tlb.map Prod.fst := (dictContains_eq_false_iff _ _).mp hc
    by_cases hfull : TLB_SIZE ≤ s.tlb.length
    · obtain ⟨e0, d', htlb⟩ : ∃ e0 d', s.tlb = e0 :: d' := by
        cases htl : s.tlb with
        | nil => rw [htl] at hfull; simp [TLB_SIZE] at hfull
        | cons e0 d' => exact ⟨e0, d', rfl⟩
      have hq : s.tlb_queue = e0.1 :: d'.map Prod.fst := by
        rw [← hkeys, htlb, List.map_cons]
      have holdest : s.tlb_queue.headD 0 = e0.1 := by rw [hq]; rfl
      have htail : s.tlb_queue.tail = d'.map Prod.fst := by rw [hq]; rfl
      have hnodup' := hq ▸ hnodup
      obtain ⟨hn1, hn2⟩ := List.nodup_cons.mp hnodup'
      have hdc : dictContains d' e0.1 = false := (dictContains_eq_false_iff _ _).mpr hn1
      have hdel : dictDel s.tlb (s.tlb_queue.headD 0) = d' := by
        rw [holdest, htlb, dictDel_cons_head hdc]
      have hpd' : dictContains d' p = false := by
        apply (dictContains_eq_false_iff _ _).mpr
        intro hmem
        exact hnotin (by rw [htlb, List.map_cons]; exact List.mem_cons_of_mem _ hmem)
      have hset : dictSet (dictDel s.tlb (s.tlb_queue.headD 0)) p f = d' ++ [(p, f)] := by
        rw [hdel, dictSet_of_not_contains f hpd']
      rw [update_tlb, if_neg (by simp [hc]), if_pos hfull]
      refine ⟨?_, ?_, ?_, ?_⟩
      · simp only [hset, htail, List.map_append]
        rfl
      · rw [htail]
        refine List.Nodup.append hn2 (List.nodup_singleton p) ?_
        intro x hx hx'
        rw [List.mem_singleton] at hx'
        subst hx'
        exact hnotin (by rw [htlb, List.map_cons]; exact List.mem_cons_of_mem _ hx)
      · simp only [hset, List.length_append, List.length_singleton]
        have : s.tlb.length = d'.length + 1 := by rw [htlb]; rfl
        omega
      · intro e he
        simp only [hset, List.mem_append, List.mem_singleton] at he
        rcases he with he | he
        · exact hsub e (by rw [htlb]; exact List.mem_cons_of_mem _ he)
        · subst he; exact hp
    · have hset : dictSet s.tlb p f = s.tlb ++ [(p, f)] := dictSet_of_not_contains f hc
      rw [update_tlb, if_neg (by simp [hc]), if_neg hfull]
      refine ⟨?_, ?_, ?_, ?_⟩
      · simp only [hset, List.map_append, hkeys]
        rfl
      · rw [← hkeys]
        refine List.Nodup.append (hkeys ▸ hnodup) (List.nodup_singleton p) ?_
        intro x hx hx'
        rw [List.mem_singleton] at hx'
        subst hx'
        exact hnotin hx
      · simp only [hset, List.length_append, List.length_singleton]
        omega
      · intro e he
        simp only [hset, List.mem_append, List.mem_singleton] at he
        rcases he with he | he
        · exact hsub e he
        · subst he; exact hp


/-- With an 8-bit fresh page number the page table is never full at the time
of a fault, so the `% NUM_PAGES` wraparound is vacuous: the assigned frame is
exactly the current table size. -/
lemma fault_frame_eq {pt : List (Nat × Nat)} (h : PTInv pt) {p : Nat} (hp : p < 256)
    (hc : dictContains pt p = false) : pt.length % NUM_PAGES = pt.length := by
  have hle : pt.length ≤ 256 := PTInv_length_le h
  have hlt : pt.length < 256 := by
    rcases Nat.lt_or_ge pt.length 256 with h' | h'
    · exact h'
    · exfalso
      have hlen : pt.length = 256 := le_antisymm hle h'
      obtain ⟨-, hnodup, hbnd⟩ := h
      have hsub : (pt.map Prod.fst).toFinset ⊆ Finset.range 256 := by
        intro x hx
        rw [List.mem_toFinset, List.mem_map] at hx
        obtain ⟨e, he, rfl⟩ := hx
        exact Finset.mem_range.mpr (hbnd e he)
      have hcard : (pt.map Prod.fst).toFinset.card = 256 := by
        rw [List.toFinset_card_of_nodup hnodup, List.length_map, hlen]
      have heq : (pt.map Prod.fst).toFinset = Finset.range 256 :=
        Finset.eq_of_subset_of_card_le hsub (by rw [hcard, Finset.card_range])
      have hpin : p ∈ (pt.map Prod.fst).toFinset := by
        rw [heq]; exact Finset.mem_range.mpr hp
      rw [List.mem_toFinset] at hpin
      exact absurd hpin ((dictContains_eq_false_iff _ _).mp hc)
  have : NUM_PAGES = 256 := rfl
  rw [this]
  exact Nat.mod_eq_of_lt hlt

lemma handle_page_fault_PTInv {pt : List (Nat × Nat)} (h : PTInv pt) {p : Nat}
    (hp : p < 256) (hc : dictContains pt p = false) :
    PTInv (dictSet pt p (pt.length % NUM_PAGES)) := by
  rw [dictSet_of_not_contains _ hc, fault_frame_eq h hp hc]
  obtain ⟨hget, hnodup, hbnd⟩ := h
  refine ⟨?_, ?_, ?_⟩
  · intro i hi
    rw [List.length_append, List.length_singleton] at hi
    rcases Nat.lt_or_ge i pt.length with hilt | hige
    · rw [List.get_append _ hilt]
      exact hget i hilt
    · have hieq : i = pt.length := by omega
      subst hieq
      simp
  · rw [List.map_append, List.map_singleton]
    refine List.Nodup.append hnodup (List.nodup_singleton p) ?_
    intro x hx hx'
    rw [List.mem_singleton] at hx'
    subst hx'
    exact absurd hx ((dictContains_eq_false_iff _ _).mp hc)
  · intro e he
    rw [List.mem_append, List.mem_singleton] at he
    rcases he with he | he
    · exact hbnd e he
    · subst he; exact hp

lemma handle_page_fault_TLBInv {s : SimState} (h : TLBInv s) {p : Nat}
    (hc : dictContains s.page_table p = false) :
    TLBInv (handle_page_fault s p).2 := by
  obtain ⟨hkeys, hnodup, hlen, hsub⟩ := h
  refine ⟨hkeys, hnodup, hlen, ?_⟩
  intro e he
  rw [handle_page_fault_page_table, dictSet_of_not_contains _ hc, List.mem_append]
  exact Or.inl (hsub e he)

lemma handle_page_fault_CacheInv {s : SimState} (hC : CacheInv s)
    (hPT : PTInv s.page_table) {p : Nat} (hp : p < 256)
    (hc : dictContains s.page_table p = false) :
    CacheInv (handle_page_fault s p).2 := by
  obtain ⟨hlen, hlines⟩ := hC
  have hfr := fault_frame_eq hPT hp hc
  refine ⟨by rw [handle_page_fault_cache]; exact hlen, ?_⟩
  intro i hi hvalid
  rw [handle_page_fault_cache] at hvalid ⊢
  obtain ⟨t, htag, hbound, hdata⟩ := hlines i hi hvalid
  refine ⟨t, htag, ?_, ?_⟩
  · rw [handle_page_fault_page_table, dictSet_of_not_contains _ hc,
      List.length_append, List.length_singleton]
    calc t * 512 + i * 8 + 8 ≤ s.page_table.length * 256 := hbound
      _ ≤ (s.page_table.length + 1) * 256 := by omega
  · rw [handle_page_fault_main_memory, hdata]
    apply List.map_congr_left
    intro j hj
    rw [List.mem_range] at hj
    have hstart : (s.page_table.length % NUM_PAGES) * PAGE_SIZE =
        s.page_table.length * 256 := by
      rw [hfr]; rfl
    have hlt : t * 512 + i * 8 + j < (s.page_table.length % NUM_PAGES) * PAGE_SIZE := by
      rw [hstart]; omega
    exact (writeLoop_eval_out _ _ _ PAGE_SIZE _ (Or.inl hlt)).symm


lemma access_cache_cache (s : SimState) (pa : Nat) :
    (access_cache s pa).2.2.cache = s.cache ∨
    (access_cache s pa).2.2.cache =
      s.cache.set ((pa >>> 3) &&& 63)
        { tag := ((pa >>> 9 : Nat) : Int),
          data := (List.range 8).map (fun i => s.main_memory (pa - pa % 8 + i)),
          valid := true, dirty := false } := by
  simp only [access_cache]
  split
  · exact Or.inl rfl
  · exact Or.inr rfl

lemma access_cache_CacheInv {s : SimState} {pa : Nat} (hC : CacheInv s)
    (hbound : pa - pa % 8 + 8 ≤ s.page_table.length * 256) :
    CacheInv (access_cache s pa).2.2 := by
  obtain ⟨hm, hp, -, -⟩ := access_cache_fields s pa
  obtain ⟨hlen, hlines⟩ := hC
  rcases access_cache_cache s pa with hc | hc
  · exact CacheInv_congr hm hp hc ⟨hlen, hlines⟩
  · simp only [CacheInv, hc, hm, hp, List.length_set]
    refine ⟨hlen, ?_⟩
    intro i hi
    by_cases hidx : i = (pa >>> 3) &&& 63
    · subst hidx
      rw [getD_set_self _ _ _ (by rw [hlen]; exact index_lt pa)]
      intro _
      refine ⟨pa >>> 9, rfl, ?_, ?_⟩
      · have hbd := block_decomp pa
        omega
      · apply List.map_congr_left
        intro j hj
        have hbd := block_decomp pa
        congr 1
        omega
    · rw [getD_set_other _ _ _ _ hidx]
      exact hlines i hi


-- ### The invariant holds in every reachable state ###

lemma Inv_set_stats {s : SimState} (h : Inv s) (st : Stats) : Inv { s with stats := st } := by
  obtain ⟨hPT, hTLB, hC⟩ := h
  exact ⟨hPT, TLBInv_congr rfl rfl rfl hTLB, CacheInv_congr rfl rfl rfl hC⟩

lemma access_cache_Inv {s : SimState} {pa : Nat} (h : Inv s)
    (hbound : pa - pa % 8 + 8 ≤ s.page_table.length * 256) :
    Inv (access_cache s pa).2.2 := by
  obtain ⟨hPT, hTLB, hC⟩ := h
  obtain ⟨hm, hp, ht, hq⟩ := access_cache_fields s pa
  exact ⟨by rw [hp]; exact hPT, TLBInv_congr ht hq hp hTLB, access_cache_CacheInv hC hbound⟩

lemma update_tlb_Inv {s : SimState} (h : Inv s) {p f : Nat}
    (hp : (p, f) ∈ s.page_table) : Inv (update_tlb s p f) := by
  obtain ⟨hPT, hTLB, hC⟩ := h
  obtain ⟨hm, hpt, hc, -⟩ := update_tlb_fields s p f
  exact ⟨by rw [hpt]; exact hPT, update_tlb_TLBInv hTLB hp, CacheInv_congr hm hpt hc hC⟩

lemma handle_page_fault_Inv {s : SimState} (h : Inv s) {p : Nat} (hp : p < 256)
    (hc : dictContains s.page_table p = false) : Inv (handle_page_fault s p).2 := by
  obtain ⟨hPT, hTLB, hC⟩ := h
  refine ⟨?_, handle_page_fault_TLBInv hTLB hc, handle_page_fault_CacheInv hC hPT hp hc⟩
  rw [handle_page_fault_page_table]
  exact handle_page_fault_PTInv hPT hp hc

lemma getD_replicate_of_lt {α : Type} [Inhabited α] (a : α) :
    ∀ {n i : Nat}, i < n → (List.replicate n a).getD i default = a := by
  intro n
  induction n with
  | zero => intro i hi; exact absurd hi (Nat.not_lt_zero i)
  | succ n ih =>
    intro i hi
    cases i with
    | zero => rfl
    | succ i => exact ih (by omega)

lemma Inv_reset (m0 : Nat → Nat) : Inv (reset_simulator m0) := by
  refine ⟨⟨?_, ?_, ?_⟩, ⟨rfl, List.nodup_nil, Nat.zero_le _, ?_⟩, ⟨?_, ?_⟩⟩
  · intro i hi
    exact absurd hi (Nat.not_lt_zero i)
  · exact List.nodup_nil
  · intro e he
    exact absurd he (List.not_mem_nil e)
  · intro e he
    exact absurd he (List.not_mem_nil e)
  · rfl
  · intro i hi hvalid
    have h2 : (reset_simulator m0).cache.getD i default =
        { tag := -1, data := List.replicate CACHE_LINE_SIZE 0,
          valid := false, dirty := false } :=
      getD_replicate_of_lt _ (show i < CACHE_SIZE from hi)
    rw [h2] at hvalid
    exact absurd hvalid (by simp)

lemma Inv_translate {s : SimState} (h : Inv s) (va : Nat) :
    Inv (translate_address s va).2 := by
  have hPT := h.1
  have hTLB := h.2.1
  have hplt : (va >>> 8) &&& 0xFF < 256 := page_num_lt va
  have hoffle : va &&& 0xFF ≤ 255 := offset_le va
  simp only [translate_address]
  split
  next htlb =>
    have hmem : ((va >>> 8) &&& 0xFF, dictGet s.tlb ((va >>> 8) &&& 0xFF)) ∈ s.tlb :=
      dictGet_mem htlb
    have hmempt := hTLB.2.2.2 _ hmem
    have hf : dictGet s.tlb ((va >>> 8) &&& 0xFF) < s.page_table.length :=
      PTInv_mem_frame_lt hPT hmempt
    exact access_cache_Inv (Inv_set_stats h _) (block_bound hf hoffle)
  next htlb' =>
    split
    next hpt =>
      have hmem : ((va >>> 8) &&& 0xFF, dictGet s.page_table ((va >>> 8) &&& 0xFF)) ∈
          s.page_table := dictGet_mem hpt
      have hf : dictGet s.page_table ((va >>> 8) &&& 0xFF) < s.page_table.length :=
        PTInv_mem_frame_lt hPT hmem
      refine access_cache_Inv (update_tlb_Inv (Inv_set_stats h _) hmem) ?_
      rw [(update_tlb_fields _ _ _).2.1]
      exact block_bound hf hoffle
    next hpt' =>
      have hcf : dictContains s.page_table ((va >>> 8) &&& 0xFF) = false :=
        Bool.eq_false_iff.mpr hpt'
      refine access_cache_Inv
        (update_tlb_Inv
          (handle_page_fault_Inv
            (Inv_set_stats h
              { s.stats with tlb_misses := s.stats.tlb_misses + 1,
                             total_accesses := s.stats.total_accesses + 1 })
            hplt hcf)
          ?hmem) ?hbound
      case hmem =>
        rw [handle_page_fault_page_table, handle_page_fault_fst]
        dsimp only
        rw [dictSet_of_not_contains _ hcf]
        exact List.mem_append_right _ (List.mem_singleton.mpr rfl)
      case hbound =>
        rw [(update_tlb_fields _ _ _).2.1, handle_page_fault_page_table,
          handle_page_fault_fst]
        dsimp only
        rw [dictSet_of_not_contains _ hcf, List.length_append, List.length_singleton,
          fault_frame_eq hPT hplt hcf]
        exact block_bound (Nat.lt_succ_self _) hoffle

/-- Every reachable state satisfies all structural invariants. -/
lemma Inv_reachable {s : SimState} (h : Reachable s) : Inv s := by
  induction h with
  | reset m0 => exact Inv_reset m0
  | translate s va _ ih => exact Inv_translate ih va


-- ### Statistics bookkeeping ###

lemma translate_stats (s : SimState) (va : Nat) :
    (translate_address s va).2.stats.total_accesses = s.stats.total_accesses + 1 ∧
    (translate_address s va).2.stats.tlb_hits + (translate_address s va).2.stats.tlb_misses =
      s.stats.tlb_hits + s.stats.tlb_misses + 1 ∧
    (translate_address s va).2.stats.cache_hits + (translate_address s va).2.stats.cache_misses =
      s.stats.cache_hits + s.stats.cache_misses + 1 ∧
    s.stats.tlb_hits ≤ (translate_address s va).2.stats.tlb_hits ∧
    s.stats.tlb_misses ≤ (translate_address s va).2.stats.tlb_misses ∧
    s.stats.cache_hits ≤ (translate_address s va).2.stats.cache_hits ∧
    s.stats.cache_misses ≤ (translate_address s va).2.stats.cache_misses ∧
    s.stats.page_faults ≤ (translate_address s va).2.stats.page_faults ∧
    s.stats.total_accesses ≤ (translate_address s va).2.stats.total_accesses := by
  simp only [translate_address, access_cache]
  split
  next =>
    split <;> (dsimp only; omega)
  next =>
    split
    next =>
      split <;>
        (dsimp only; rw [(update_tlb_fields _ _ _).2.2.2]; dsimp only; omega)
    next =>
      split <;>
        (dsimp only; rw [(update_tlb_fields _ _ _).2.2.2, handle_page_fault_stats];
         dsimp only; omega)

lemma run_stats (vas : List Nat) : ∀ s : SimState,
    (runTranslations s vas).stats.total_accesses = s.stats.total_accesses + vas.length ∧
    (runTranslations s vas).stats.tlb_hits + (runTranslations s vas).stats.tlb_misses =
      s.stats.tlb_hits + s.stats.tlb_misses + vas.length ∧
    (runTranslations s vas).stats.cache_hits + (runTranslations s vas).stats.cache_misses =
      s.stats.cache_hits + s.stats.cache_misses + vas.length := by
  induction vas with
  | nil => intro s; exact ⟨rfl, rfl, rfl⟩
  | cons va vas ih =>
    intro s
    have hstep := translate_stats s va
    have hrest := ih (translate_address s va).2
    simp only [runTranslations, List.foldl_cons] at hrest ⊢
    simp only [runTranslations] at ih
    rw [List.length_cons]
    omega


-- ### Concrete executions used as witnesses ###

/-- The state after the single call `translate_address(0x0000)` on a freshly
reset simulator with all-zero initial memory. -/
def state1 : SimState := (translate_address (reset_simulator zeroMem) 0).2

/-- 17 successive `update_tlb` insertions of the distinct pages 0..16 into a
freshly reset (hence empty) TLB. -/
def tlbFill17 : SimState :=
  (List.range 17).foldl (fun s p => update_tlb s p p) (reset_simulator zeroMem)

-- ### The claims ###

/-- Claim C4: for every state and page number absent from the page table,
`handle_page_fault` assigns frame `len(page_table) % 256`, writes byte
`(page_num + i) % 256` to physical address `frame * 256 + i` for every
`i < 256`, appends `page_num -> frame` to the page table, increments the
`page_faults` counter by exactly one, and returns the frame. -/
theorem C4_page_fault_spec (s : SimState) (p : Nat)
    (h : dictContains s.page_table p = false) :
    (handle_page_fault s p).1 = s.page_table.length % 256 ∧
    (∀ i, i < 256 →
      (handle_page_fault s p).2.main_memory ((handle_page_fault s p).1 * 256 + i) =
        (p + i) % 256) ∧
    (handle_page_fault s p).2.page_table =
      s.page_table ++ [(p, (handle_page_fault s p).1)] ∧
    (handle_page_fault s p).2.stats.page_faults = s.stats.page_faults + 1 := by
  refine ⟨rfl, ?_, ?_, rfl⟩
  · intro i hi
    rw [handle_page_fault_main_memory, handle_page_fault_fst]
    exact writeLoop_eval_lt s.main_memory ((s.page_table.length % NUM_PAGES) * PAGE_SIZE)
      _ PAGE_SIZE i hi
  · rw [handle_page_fault_page_table, dictSet_of_not_contains _ h]
    rfl

theorem C4_page_fault_spec_witness :
    dictContains (reset_simulator zeroMem).page_table 5 = false ∧
    ((handle_page_fault (reset_simulator zeroMem) 5).1 =
        (reset_simulator zeroMem).page_table.length % 256 ∧
      (∀ i, i < 256 →
        (handle_page_fault (reset_simulator zeroMem) 5).2.main_memory
            ((handle_page_fault (reset_simulator zeroMem) 5).1 * 256 + i) = (5 + i) % 256) ∧
      (handle_page_fault (reset_simulator zeroMem) 5).2.page_table =
        (reset_simulator zeroMem).page_table ++
          [(5, (handle_page_fault (reset_simulator zeroMem) 5).1)] ∧
      (handle_page_fault (reset_simulator zeroMem) 5).2.stats.page_faults =
        (reset_simulator zeroMem).stats.page_faults + 1) :=
  ⟨by decide, C4_page_fault_spec (reset_simulator zeroMem) 5 (by decide)⟩

/-- Claim C6: inserting the 17 distinct pages 0,1,...,16 into an empty TLB
evicts page 0 and only page 0: the TLB no longer contains page 0, contains
exactly pages 1..16 (in insertion order), and the oldest remaining page, 1,
is at the front of the FIFO queue. -/
theorem C6_fifo_eviction :
    dictContains tlbFill17.tlb 0 = false ∧
    tlbFill17.tlb.map Prod.fst = [1, 2, 3, 4, 5, 6, 7, 8, 9, 10, 11, 12, 13, 14, 15, 16] ∧
    tlbFill17.tlb_queue = [1, 2, 3, 4, 5, 6, 7, 8, 9, 10, 11, 12, 13, 14, 15, 16] ∧
    tlbFill17.tlb_queue.headD 0 = 1 := by
  decide

/-- Claim C7: after any N `translate_address` calls from the reset state,
`total_accesses = N`, `tlb_hits + tlb_misses = total_accesses`, and
`cache_hits + cache_misses = total_accesses`; moreover every one of the six
counters is monotonically non-decreasing across any single call. -/
theorem C7_stats_counters :
    (∀ (m0 : Nat → Nat) (vas : List Nat),
      (runTranslations (reset_simulator m0) vas).stats.total_accesses = vas.length ∧
      (runTranslations (reset_simulator m0) vas).stats.tlb_hits +
        (runTranslations (reset_simulator m0) vas).stats.tlb_misses =
        (runTranslations (reset_simulator m0) vas).stats.total_accesses ∧
      (runTranslations (reset_simulator m0) vas).stats.cache_hits +
        (runTranslations (reset_simulator m0) vas).stats.cache_misses =
        (runTranslations (reset_simulator m0) vas).stats.total_accesses) ∧
    (∀ (s : SimState) (va : Nat),
      s.stats.tlb_hits ≤ (translate_address s va).2.stats.tlb_hits ∧
      s.stats.tlb_misses ≤ (translate_address s va).2.stats.tlb_misses ∧
      s.stats.cache_hits ≤ (translate_address s va).2.stats.cache_hits ∧
      s.stats.cache_misses ≤ (translate_address s va).2.stats.cache_misses ∧
      s.stats.page_faults ≤ (translate_address s va).2.stats.page_faults ∧
      s.stats.total_accesses ≤ (translate_address s va).2.stats.total_accesses) := by
  constructor
  · intro m0 vas
    have h := run_stats vas (reset_simulator m0)
    have hz : (reset_simulator m0).stats.total_accesses = 0 := rfl
    have hz1 : (reset_simulator m0).stats.tlb_hits = 0 := rfl
    have hz2 : (reset_simulator m0).stats.tlb_misses = 0 := rfl
    have hz3 : (reset_simulator m0).stats.cache_hits = 0 := rfl
    have hz4 : (reset_simulator m0).stats.cache_misses = 0 := rfl
    omega
  · intro s va
    have h := translate_stats s va
    omega

/-- Claim C8: for every physical address whose selected cache line misses
(invalid or tag mismatch), one `access_cache` call makes that line valid
with tag `physical_addr >> 9` and data the 8 bytes of the 8-byte-aligned
memory block containing the address, and returns the byte at the address's
low-3-bit offset (the memory byte at the address itself) with
`was_hit = false`. -/
theorem C8_cache_miss_fill (s : SimState) (pa : Nat) (hpa : pa < 65536)
    (hlen : s.cache.length = 64)
    (hmiss : ¬((s.cache.getD ((pa >>> 3) &&& 63) default).valid = true ∧
      (s.cache.getD ((pa >>> 3) &&& 63) default).tag = ((pa >>> 9 : Nat) : Int))) :
    (access_cache s pa).2.1 = false ∧
    ((access_cache s pa).2.2.cache.getD ((pa >>> 3) &&& 63) default).valid = true ∧
    ((access_cache s pa).2.2.cache.getD ((pa >>> 3) &&& 63) default).tag =
      ((pa >>> 9 : Nat) : Int) ∧
    ((access_cache s pa).2.2.cache.getD ((pa >>> 3) &&& 63) default).data =
      (List.range 8).map (fun i => s.main_memory (pa - pa % 8 + i)) ∧
    (access_cache s pa).1 = s.main_memory pa := by
  simp only [access_cache, gcc_tag, gcc_index, gcc_offset]
  split
  next hhit =>
    rw [Bool.and_eq_true, beq_iff_eq] at hhit
    exact absurd hhit hmiss
  next =>
    have hidx : (pa >>> 3) &&& 63 < s.cache.length := by rw [hlen]; exact index_lt pa
    have hset := getD_set_self s.cache ((pa >>> 3) &&& 63)
      ({ tag := ((pa >>> 9 : Nat) : Int),
         data := (List.range CACHE_LINE_SIZE).map
           (fun i => s.main_memory (pa - pa % CACHE_LINE_SIZE + i)),
         valid := true, dirty := false } : CacheLine) hidx
    refine ⟨rfl, ?_, ?_, ?_, ?_⟩
    · rw [hset]
    · rw [hset]
    · rw [hset]
      rfl
    · have hofflt : pa &&& 7 < 8 := by rw [land_7]; omega
      rw [getD_map_range (show pa &&& 7 < CACHE_LINE_SIZE from hofflt), land_7]
      have : pa - pa % 8 + pa % 8 = pa := by omega
      rw [show pa - pa % CACHE_LINE_SIZE + pa % 8 = pa from this]

theorem C8_cache_miss_fill_witness :
    (0 : Nat) < 65536 ∧ (reset_simulator zeroMem).cache.length = 64 ∧
    ¬(((reset_simulator zeroMem).cache.getD ((0 >>> 3) &&& 63) default).valid = true ∧
      ((reset_simulator zeroMem).cache.getD ((0 >>> 3) &&& 63) default).tag =
        (((0 : Nat) >>> 9 : Nat) : Int)) ∧
    ((access_cache (reset_simulator zeroMem) 0).2.1 = false ∧
      ((access_cache (reset_simulator zeroMem) 0).2.2.cache.getD ((0 >>> 3) &&& 63)
          default).valid = true ∧
      ((access_cache (reset_simulator zeroMem) 0).2.2.cache.getD ((0 >>> 3) &&& 63)
          default).tag = (((0 : Nat) >>> 9 : Nat) : Int) ∧
      ((access_cache (reset_simulator zeroMem) 0).2.2.cache.getD ((0 >>> 3) &&& 63)
          default).data =
        (List.range 8).map (fun i => (reset_simulator zeroMem).main_memory (0 - 0 % 8 + i)) ∧
      (access_cache (reset_simulator zeroMem) 0).1 =
        (reset_simulator zeroMem).main_memory 0) :=
  ⟨by decide, by decide, by decide,
    C8_cache_miss_fill (reset_simulator zeroMem) 0 (by decide) (by decide) (by decide)⟩


/-- Claim C1 is refuted: no sequence of `translate_address` calls from the
reset state can ever produce two distinct page-table entries mapping to the
same physical frame.  Page numbers are 8-bit, so at most 256 distinct pages
ever fault; faults happen only for absent pages and entries are never
removed, so the table is never full at fault time and `len(page_table) %
NUM_PAGES` never wraps. -/
theorem C1_aliasing_refuted :
    ¬ ∃ s : SimState, Reachable s ∧ ∃ e1 ∈ s.page_table, ∃ e2 ∈ s.page_table,
      e1.1 ≠ e2.1 ∧ e1.2 = e2.2 := by
  rintro ⟨s, hs, e1, h1, e2, h2, hne, hf⟩
  exact hne (congrArg Prod.fst (PTInv_frame_inj (Inv_reachable hs).1 h1 h2 hf))

/-- Claim C1, amended: in every state reachable by `translate_address` calls
from reset, the page table maps distinct page numbers to distinct frames
(each fault hands out the fresh frame `len(page_table)`, and the `%
NUM_PAGES` wraparound in the Fault Handler is dead code for 8-bit pages). -/
theorem C1_frames_injective (s : SimState) (h : Reachable s)
    (e1 e2 : Nat × Nat) (h1 : e1 ∈ s.page_table) (h2 : e2 ∈ s.page_table)
    (hf : e1.2 = e2.2) : e1.1 = e2.1 :=
  congrArg Prod.fst (PTInv_frame_inj (Inv_reachable h).1 h1 h2 hf)

theorem C1_frames_injective_witness :
    ((0, 0) : Nat × Nat) ∈ state1.page_table ∧
    ((0, 0) : Nat × Nat).1 = ((0, 0) : Nat × Nat).1 :=
  ⟨by decide,
    C1_frames_injective state1
      (Reachable.translate (reset_simulator zeroMem) 0 (Reachable.reset zeroMem))
      (0, 0) (0, 0) (by decide) (by decide) rfl⟩

/-- Claim C3: in every reachable state, every valid cache line holds a
byte-for-byte copy of the 8-byte aligned physical-memory block identified by
its tag and index (`block start = tag * 512 + index * 8`). -/
theorem C3_cache_coherent (s : SimState) (h : Reachable s) (i : Nat) (hi : i < 64)
    (hvalid : (s.cache.getD i default).valid = true) :
    ∃ t : Nat, (s.cache.getD i default).tag = (t : Int) ∧
      (s.cache.getD i default).data =
        (List.range 8).map (fun j => s.main_memory (t * 512 + i * 8 + j)) := by
  obtain ⟨t, htag, -, hdata⟩ := (Inv_reachable h).2.2.2 i hi hvalid
  exact ⟨t, htag, hdata⟩

theorem C3_cache_coherent_witness :
    (0 : Nat) < 64 ∧ (state1.cache.getD 0 default).valid = true ∧
    ∃ t : Nat, (state1.cache.getD 0 default).tag = (t : Int) ∧
      (state1.cache.getD 0 default).data =
        (List.range 8).map (fun j => state1.main_memory (t * 512 + 0 * 8 + j)) :=
  ⟨by decide, by decide,
    C3_cache_coherent state1
      (Reachable.translate (reset_simulator zeroMem) 0 (Reachable.reset zeroMem))
      0 (by decide) (by decide)⟩

/-- Claim C5: in every state reachable by any sequence of
`translate_address` and reset calls, the TLB holds at most 16 entries and
the key set of the FIFO queue is exactly the key set of the TLB mapping. -/
theorem C5_tlb_bounded_queue_sync (s : SimState) (h : Reachable s) :
    s.tlb.length ≤ 16 ∧ ∀ p : Nat, p ∈ s.tlb.map Prod.fst ↔ p ∈ s.tlb_queue := by
  obtain ⟨hkeys, -, hlen, -⟩ := (Inv_reachable h).2.1
  exact ⟨hlen, fun p => by rw [hkeys]⟩

theorem C5_tlb_bounded_queue_sync_witness :
    state1.tlb.length ≤ 16 ∧ ((0 : Nat) ∈ state1.tlb.map Prod.fst ↔ (0 : Nat) ∈ state1.tlb_queue) :=
  ⟨(C5_tlb_bounded_queue_sync state1
      (Reachable.translate (reset_simulator zeroMem) 0 (Reachable.reset zeroMem))).1,
   (C5_tlb_bounded_queue_sync state1
      (Reachable.translate (reset_simulator zeroMem) 0 (Reachable.reset zeroMem))).2 0⟩


/-- In an invariant-respecting state, the frame chosen by a translation is
below 256 and the physical address is `frame * 256 + offset`. -/
lemma translate_frame_char {s : SimState} (h : Inv s) (va : Nat) :
    (translate_address s va).1.frame_num < 256 ∧
    (translate_address s va).1.physical_addr =
      (translate_address s va).1.frame_num * 256 + (va &&& 0xFF) := by
  obtain ⟨hPT, hTLB, -⟩ := h
  have hlen := PTInv_length_le hPT
  simp only [translate_address]
  split
  next htlb =>
    have hmem := hTLB.2.2.2 _ (dictGet_mem htlb)
    have hf := PTInv_mem_frame_lt hPT hmem
    dsimp only
    exact ⟨by omega, rfl⟩
  next =>
    split
    next hpt =>
      have hf := PTInv_mem_frame_lt hPT (dictGet_mem hpt)
      dsimp only
      exact ⟨by omega, rfl⟩
    next hpt' =>
      dsimp only
      refine ⟨?_, rfl⟩
      rw [handle_page_fault_fst]
      exact Nat.mod_lt _ (by decide)

/-- Claim C9: for every reachable state and every 16-bit virtual address,
the computed physical address is within `[0, 65536)`, every index the cache
fill loop can touch (`block_start + i`, `i < 8`) is in bounds, and every
index the page-fault fill loop can touch (`frame * 256 + i`, `i < 256`) is
in bounds: no physical-memory access is out of range. -/
theorem C9_no_out_of_range (s : SimState) (h : Reachable s) (va : Nat)
    (hva : va ≤ 0xFFFF) :
    (translate_address s va).1.frame_num < 256 ∧
    (translate_address s va).1.physical_addr < 65536 ∧
    (∀ i, i < 8 →
      (translate_address s va).1.physical_addr -
        (translate_address s va).1.physical_addr % 8 + i < 65536) ∧
    (∀ i, i < 256 → (translate_address s va).1.frame_num * 256 + i < 65536) := by
  obtain ⟨h1, h2⟩ := translate_frame_char (Inv_reachable h) va
  have hoffle : va &&& 0xFF ≤ 255 := offset_le va
  refine ⟨h1, ?_, ?_, ?_⟩
  · rw [h2]; omega
  · intro i hi
    rw [h2]
    omega
  · intro i hi
    omega

theorem C9_no_out_of_range_witness :
    (0 : Nat) ≤ 0xFFFF ∧
    ((translate_address (reset_simulator zeroMem) 0).1.frame_num < 256 ∧
      (translate_address (reset_simulator zeroMem) 0).1.physical_addr < 65536 ∧
      (∀ i, i < 8 →
        (translate_address (reset_simulator zeroMem) 0).1.physical_addr -
          (translate_address (reset_simulator zeroMem) 0).1.physical_addr % 8 + i < 65536) ∧
      (∀ i, i < 256 →
        (translate_address (reset_simulator zeroMem) 0).1.frame_num * 256 + i < 65536)) :=
  ⟨by decide,
    C9_no_out_of_range (reset_simulator zeroMem) (Reachable.reset zeroMem) 0 (by decide)⟩

/-- Claim C10: whenever the page number of the virtual address is present in
the TLB, `translate_address` leaves physical memory, the page table, the TLB
mapping and the FIFO queue unchanged, and changes no cache line other than
the one selected by the physical address's index bits (only statistics may
otherwise change). -/
theorem C10_tlb_hit_frame (s : SimState) (va : Nat)
    (h : dictContains s.tlb ((va >>> 8) &&& 0xFF) = true) :
    (translate_address s va).2.main_memory = s.main_memory ∧
    (translate_address s va).2.page_table = s.page_table ∧
    (translate_address s va).2.tlb = s.tlb ∧
    (translate_address s va).2.tlb_queue = s.tlb_queue ∧
    ∀ j : Nat, j ≠ ((translate_address s va).1.physical_addr >>> 3) &&& 63 →
      (translate_address s va).2.cache.getD j default = s.cache.getD j default := by
  simp only [translate_address]
  rw [if_pos h]
  dsimp only
  refine ⟨?_, ?_, ?_, ?_, ?_⟩
  · rw [(access_cache_fields _ _).1]
  · rw [(access_cache_fields _ _).2.1]
  · rw [(access_cache_fields _ _).2.2.1]
  · rw [(access_cache_fields _ _).2.2.2]
  · intro j hj
    rcases access_cache_cache
        { s with stats :=
            { s.stats with tlb_hits := s.stats.tlb_hits + 1,
                           total_accesses := s.stats.total_accesses + 1 } }
        (dictGet s.tlb ((va >>> 8) &&& 0xFF) * PAGE_SIZE + (va &&& 0xFF)) with hc | hc
    · rw [hc]
    · rw [hc, getD_set_other _ _ _ _ hj]


theorem C10_tlb_hit_frame_witness :
    dictContains state1.tlb ((0 >>> 8) &&& 0xFF) = true ∧
    ((translate_address state1 0).2.main_memory = state1.main_memory ∧
      (translate_address state1 0).2.page_table = state1.page_table ∧
      (translate_address state1 0).2.tlb = state1.tlb ∧
      (translate_address state1 0).2.tlb_queue = state1.tlb_queue ∧
      ∀ j : Nat, j ≠ ((translate_address state1 0).1.physical_addr >>> 3) &&& 63 →
        (translate_address state1 0).2.cache.getD j default = state1.cache.getD j default) :=
  ⟨by decide, C10_tlb_hit_frame state1 0 (by decide)⟩

set_option maxRecDepth 8000 in
/-- Claim C2: on a freshly reset simulator (any initial memory content), the
first call `translate_address(0x0000)` decomposes to page 0 / offset 0,
misses the TLB, misses the page table (one page fault, frame 0), writes
byte `i % 256` to each physical address `i < 256`, misses the cache and
fills line 0 with the bytes `[0,1,2,3,4,5,6,7]`, and its result record has
`tlb_hit = false`, `cache_hit = false`, `value = 0`, `physical_addr = 0`,
`frame_num = 0`. -/
theorem C2_first_access (m0 : Nat → Nat) :
    ((translate_address (reset_simulator m0) 0).1.page_num = 0 ∧
      (translate_address (reset_simulator m0) 0).1.tlb_hit = false ∧
      (translate_address (reset_simulator m0) 0).1.cache_hit = false ∧
      (translate_address (reset_simulator m0) 0).1.value = 0 ∧
      (translate_address (reset_simulator m0) 0).1.physical_addr = 0 ∧
      (translate_address (reset_simulator m0) 0).1.frame_num = 0 ∧
      (translate_address (reset_simulator m0) 0).2.stats.tlb_misses = 1 ∧
      (translate_address (reset_simulator m0) 0).2.stats.page_faults = 1 ∧
      (translate_address (reset_simulator m0) 0).2.stats.cache_misses = 1 ∧
      ((translate_address (reset_simulator m0) 0).2.cache.getD 0 default).valid = true ∧
      ((translate_address (reset_simulator m0) 0).2.cache.getD 0 default).data =
        [0, 1, 2, 3, 4, 5, 6, 7]) ∧
    (∀ i, i < 256 →
      (translate_address (reset_simulator m0) 0).2.main_memory i = i % 256) := by
  constructor
  · have hr8 : List.range 8 = [0, 1, 2, 3, 4, 5, 6, 7] := rfl
    simp [translate_address, dictContains, reset_simulator, access_cache, handle_page_fault,
      update_tlb, TLB_SIZE, PAGE_SIZE, CACHE_SIZE, CACHE_LINE_SIZE, NUM_PAGES, MEMORY_SIZE,
      get_cache_components, CACHE_OFFSET_BITS, CACHE_INDEX_BITS, initCache, dictSet, dictDel,
      writeLoop, hr8]
  · intro i hi
    have hm : (translate_address (reset_simulator m0) 0).2.main_memory =
        writeLoop m0 0 (fun j => j % 256) 256 := by
      simp [translate_address, dictContains, reset_simulator, access_cache, handle_page_fault,
        update_tlb, TLB_SIZE, PAGE_SIZE, CACHE_SIZE, CACHE_LINE_SIZE, NUM_PAGES, MEMORY_SIZE,
        get_cache_components, CACHE_OFFSET_BITS, CACHE_INDEX_BITS, initCache, dictSet, dictDel]
    rw [hm]
    nth_rewrite 1 [← Nat.zero_add i]
    exact writeLoop_eval_lt m0 0 (fun j => j % 256) 256 i hi


theorem C2_first_access_witness :
    ((translate_address (reset_simulator zeroMem) 0).1.page_num = 0 ∧
      (translate_address (reset_simulator zeroMem) 0).1.tlb_hit = false ∧
      (translate_address (reset_simulator zeroMem) 0).1.cache_hit = false ∧
      (translate_address (reset_simulator zeroMem) 0).1.value = 0 ∧
      (translate_address (reset_simulator zeroMem) 0).1.physical_addr = 0 ∧
      (translate_address (reset_simulator zeroMem) 0).1.frame_num = 0 ∧
      (translate_address (reset_simulator zeroMem) 0).2.stats.tlb_misses = 1 ∧
      (translate_address (reset_simulator zeroMem) 0).2.stats.page_faults = 1 ∧
      (translate_address (reset_simulator zeroMem) 0).2.stats.cache_misses = 1 ∧
      ((translate_address (reset_simulator zeroMem) 0).2.cache.getD 0 default).valid = true ∧
      ((translate_address (reset_simulator zeroMem) 0).2.cache.getD 0 default).data =
        [0, 1, 2, 3, 4, 5, 6, 7]) ∧
    (∀ i, i < 256 →
      (translate_address (reset_simulator zeroMem) 0).2.main_memory i = i % 256) :=
  C2_first_access zeroMem

end MemSim
